import Mathlib

/-!
# Verification of `job_pool` (src/job_pool/job_pool.py)

A shallow embedding of the worker-pool controller in `job_pool.py`.

The controller's state and control flow are embedded as executable Lean
functions over discrete time (one unit = one second, matching the
`res.wait(timeout=1)` polling granularity of the Python code):

* `Proc` models one worker process of `NestablePool` (a Python
  `multiprocessing.Process`): `exitcode` is `none` while the process is
  alive and `some c` once it has terminated with status `c`.
* `Process` models `NestablePool.Process` (job_pool.py lines 37-42):
  every newly spawned worker is appended to the tracked list
  `self.processes`.
* `check_for_terminated_processes` models
  `NestablePool.check_for_terminated_processes` (lines 44-48): return
  the first tracked process with a truthy (nonzero, non-`None`)
  exitcode; if there is none, prune processes whose exitcode equals 0
  from the tracked list.
* `Handle` models one `AsyncResult` held in `JobPool.results`:
  `readyAt` is the absolute time at which the job's outcome arrives
  (`res.ready()` is true exactly from then on) and `result` is what
  `res.get()` yields: the job's return value, or the exception the job
  body raised.
* `Env` is the environment the controller polls: `procs t` is the
  pool's tracked process list as it would be scanned at time `t`
  (worker deaths and respawns show up here; exit codes are terminal in
  reality, so the controller-side pruning of 0-exit processes never
  hides a process that could later test truthy), and `interruptAt`
  models a `KeyboardInterrupt`/`SystemExit` delivered to the controller
  while it sits in the polling loop at that time (`none` = no
  interrupt).
* `checkForTerminatedProcess` models `JobPool.checkForTerminatedProcess`
  (lines 167-179) and `checkPool` models `JobPool.checkPool`
  (lines 139-161), including the `stopPool` teardown (lines 163-165)
  and the `raise AbnormalPoolTerminationError from None` that discards
  the caught cause on every failure path.
* `applyAsync` / `markJobDone` (lines 130-137) are embedded as a state
  machine over submission/completion events for the token-accounting
  claims.
-/

/-- One worker process tracked by `NestablePool.processes`.
`exitcode` is `none` while the process is alive, `some c` once it has
terminated with exit status `c` (mirroring
`multiprocessing.Process.exitcode`). -/
structure Proc where
  pid : Nat
  exitcode : Option Int
deriving DecidableEq, Repr

/-- Python truthiness of `proc.exitcode` in the guard
`if proc.exitcode:` (line 46): `None` and `0` are falsy, any nonzero
integer is truthy. -/
def truthyExit (p : Proc) : Bool :=
  match p.exitcode with
  | none => false
  | some c => decide (c ≠ 0)

/-- `NestablePool.Process` (lines 37-42): spawning a worker appends it
to the tracked list `self.processes`. -/
def Process (ps : List Proc) (p : Proc) : List Proc :=
  ps ++ [p]

/-- `NestablePool.check_for_terminated_processes` (lines 44-48).
Returns `(found, tracked')`: `found` is the first process whose
exitcode is truthy (the `return proc` on line 47, taken before any
pruning), in which case the tracked list is left as it was; otherwise
`tracked'` is the pruned list keeping only processes with
`p.exitcode != 0` (line 48; `None != 0` is true in Python, so live
processes are kept and only 0-exit retirees are dropped). -/
def check_for_terminated_processes (ps : List Proc) : Option Proc × List Proc :=
  match ps.find? truthyExit with
  | some p => (some p, ps)
  | none => (none, ps.filter (fun p => decide (p.exitcode ≠ some 0)))

instance {ε α : Type} [DecidableEq ε] [DecidableEq α] : DecidableEq (Except ε α) :=
  fun a b =>
    match a, b with
    | .ok x, .ok y => decidable_of_iff (x = y) (by simp)
    | .ok _, .error _ => isFalse (by simp)
    | .error _, .ok _ => isFalse (by simp)
    | .error e, .error e' => decidable_of_iff (e = e') (by simp)

/-- One `AsyncResult` tracked in `JobPool.results`: the job becomes
ready at absolute time `readyAt`, and `res.get()` then yields `result`
(`Except.error e` models the job body having raised exception `e`,
which `get` re-raises). -/
structure Handle where
  readyAt : Nat
  result : Except String Int
deriving DecidableEq, Repr

/-- The environment `JobPool.checkPool` polls: the tracked process list
as scanned at each time, and an optional externally delivered
interrupt (`KeyboardInterrupt`/`SystemExit`) hitting the controller's
polling loop at the given time. -/
structure Env where
  procs : Nat → List Proc
  interruptAt : Option Nat

/-- The fatal condition that aborts `checkPool`'s collection loop:
`AbnormalWorkerTerminationError` raised for a dead worker (lines
170-173), `TimeoutError` (line 179), a `KeyboardInterrupt`/`SystemExit`
(line 153), or an ordinary exception re-raised by `res.get()`
(line 149 landing in the handler on line 157). -/
inductive FatalCause where
  | workerDeath (p : Proc)
  | timeout
  | interrupted
  | jobError (e : String)
deriving DecidableEq, Repr

/-- The `while not res.ready():` loop of
`JobPool.checkForTerminatedProcess` (lines 169-179), polled at discrete
1-second steps (`res.wait(timeout=1)`).  Per iteration, in source
order: if the handle is ready the loop exits (returning the current
time, at which `res.get()` is then called); otherwise the worker
exit-status check runs and raises on a truthy exitcode; then the
controller blocks in `res.wait(timeout=1)` — one time unit elapses,
and an interrupt delivered during that wait aborts the loop; then
`time.time() - start_time > self.timeout` raises `TimeoutError`
(strict comparison, checked before re-testing readiness).

`fuel` bounds the recursion; the caller passes `T + 2`, which is never
exhausted because the timeout check stops the loop once
`t - start > T` (see `cftpLoop_fuel_irrelevant`-style lemmas below:
all behaviour lemmas are proved with the concrete fuel). -/
def cftpLoop (env : Env) (T : Nat) (h : Handle) (start : Nat) :
    Nat → Nat → Except FatalCause Nat
  | _, 0 => .error .timeout
  | t, fuel + 1 =>
    if h.readyAt ≤ t then
      .ok t
    else
      match (check_for_terminated_processes (env.procs t)).1 with
      | some p => .error (.workerDeath p)
      | none =>
        if env.interruptAt = some t then
          .error .interrupted
        else
          if T < t + 1 - start then
            .error .timeout
          else
            cftpLoop env T h start (t + 1) fuel

/-- `JobPool.checkForTerminatedProcess(res)` (lines 167-179): record
`start_time` (= the current time `t`) and run the polling loop.
Returns the time at which the handle was observed ready, or the fatal
cause that aborted the wait. -/
def checkForTerminatedProcess (env : Env) (T : Nat) (h : Handle) (t : Nat) :
    Except FatalCause Nat :=
  cftpLoop env T h t t (T + 2)

/-- The `for res in self.results:` loop of `JobPool.checkPool`
(lines 147-149): for each handle in submission order, wait for it via
`checkForTerminatedProcess`, then `outputs.append(res.get())` — which
re-raises the job's own exception if the job body raised.  Returns the
collected outputs together with the time at which the loop finished,
or the first fatal cause. -/
def runHandles (env : Env) (T : Nat) :
    List Handle → Nat → Except FatalCause (List Int × Nat)
  | [], t => .ok ([], t)
  | h :: hs, t =>
    match checkForTerminatedProcess env T h t with
    | .error c => .error c
    | .ok t' =>
      match h.result with
      | .error e => .error (.jobError e)
      | .ok v =>
        match runHandles env T hs t' with
        | .error c => .error c
        | .ok (vs, tEnd) => .ok (v :: vs, tEnd)

/-- The single error kind `checkPool` surfaces
(`AbnormalPoolTerminationError`, lines 156 and 161).  Its `cause` field
models Python's `__cause__`; both raise sites use
`raise ... from None`, which sets it to `None`. -/
inductive PoolError where
  | abnormalPoolTermination (cause : Option FatalCause)
deriving DecidableEq, Repr

/-- Observable outcome of one `checkPool` call: the returned value or
raised error, plus the side effects of `stopPool` (lines 163-165:
`pool.terminate()` then `pool.join()`) and of
`progress_bar.close()` (line 151, success path only). -/
structure CheckPoolOutcome where
  result : Except PoolError (List Int)
  terminateCalls : Nat
  joinCalls : Nat
  progressBarClosed : Bool
deriving DecidableEq, Repr

/-- `JobPool.checkPool(printProgressEvery=-1)` (lines 139-161).  The
`printProgressEvery` parameter is documented as deprecated and does not
occur in the body; it is kept in the signature to state that fact.  On
success: `stopPool()`, `progress_bar.close()`, return the outputs.  On
any exception (`KeyboardInterrupt`/`SystemExit` on line 153 or any
`Exception` on line 157): log it, `stopPool()`, and
`raise AbnormalPoolTerminationError from None` — the caught cause `_c`
is discarded, not attached to the surfaced error. -/
def checkPool (env : Env) (T : Nat) (handles : List Handle) (t0 : Nat)
    (printProgressEvery : Int := -1) : CheckPoolOutcome :=
  match runHandles env T handles t0 with
  | .ok (outputs, _) =>
    { result := .ok outputs
      terminateCalls := 1
      joinCalls := 1
      progressBarClosed := true }
  | .error _c =>
    { result := .error (.abnormalPoolTermination none)
      terminateCalls := 1
      joinCalls := 1
      progressBarClosed := false }

/-! ## Submission/completion state machine (`applyAsync` / `markJobDone`)

`applyAsync` (lines 130-133) puts one token (`"dummy"`) on the bounded
`job_queue`, submits the job with `callback=self.markJobDone`, and
appends the returned handle to `self.results`.  `markJobDone`
(lines 135-137) — invoked by `multiprocessing` only as the *success*
callback — takes one token off the queue and advances the progress bar
by one.  A job that finishes with an error never triggers `callback`,
so neither the token nor the progress count moves. -/

/-- Controller-side bookkeeping state: the number of tokens in
`job_queue`, the tracked `results` list, and the progress-bar count. -/
structure TrackState where
  queuedTokens : Nat
  results : List Handle
  progress : Nat
deriving DecidableEq, Repr

/-- The state before any submission. -/
def initState : TrackState :=
  { queuedTokens := 0, results := [], progress := 0 }

/-- `JobPool.markJobDone` (lines 135-137): `self.job_queue.get()`
removes one token and `self.progress_bar.update(1)` advances the
progress count by one. -/
def markJobDone (s : TrackState) : TrackState :=
  { s with queuedTokens := s.queuedTokens - 1, progress := s.progress + 1 }

/-- `JobPool.applyAsync` (lines 130-133): `self.job_queue.put("dummy")`
adds one token and `self.results.append(r)` appends the new handle. -/
def applyAsync (s : TrackState) (h : Handle) : TrackState :=
  { s with queuedTokens := s.queuedTokens + 1, results := s.results ++ [h] }

/-- Events observable by the controller's bookkeeping: a submission
(`applyAsync`), a job finishing successfully (its `callback`, i.e.
`markJobDone`, fires), or a job finishing with an error (no `callback`;
at most the `error_callback` runs, which touches neither the token
queue nor the progress bar). -/
inductive PoolEvent where
  | submit (h : Handle)
  | completeOk
  | completeErr
deriving DecidableEq, Repr

/-- The effect of one event on the bookkeeping state. -/
def step (s : TrackState) : PoolEvent → TrackState
  | .submit h => applyAsync s h
  | .completeOk => markJobDone s
  | .completeErr => s

/-- A trace is valid relative to `n` pending tokens when every
`completeOk` has a matching earlier submission still pending —
`job_queue.get()` consumes a token that a prior `put` placed (the queue
never goes negative; `get` on an empty queue would block forever, not
proceed). -/
def validFrom : Nat → List PoolEvent → Bool
  | _, [] => true
  | n, .submit _ :: evs => validFrom (n + 1) evs
  | n, .completeOk :: evs => decide (n ≠ 0) && validFrom (n - 1) evs
  | n, .completeErr :: evs => validFrom n evs

/-- Number of `submit` events in a trace. -/
def countSubmits : List PoolEvent → Nat
  | [] => 0
  | .submit _ :: evs => countSubmits evs + 1
  | _ :: evs => countSubmits evs

/-- Number of successful completions (`markJobDone` invocations) in a
trace. -/
def countOk : List PoolEvent → Nat
  | [] => 0
  | .completeOk :: evs => countOk evs + 1
  | _ :: evs => countOk evs

/-! ## Specification-side predicates -/

/-- A quiet environment: no interrupt is ever delivered and no scan of
the tracked process list reports a dead (truthy-exitcode) worker. -/
def QuietEnv (env : Env) : Prop :=
  env.interruptAt = none ∧
  ∀ t, (check_for_terminated_processes (env.procs t)).1 = none

/-- Each handle, awaited in submission order starting at time `t`,
becomes ready within the per-handle timeout `T` of the start of its own
wait segment.  The next segment starts when the previous handle was
observed ready (`max t h.readyAt`). -/
def segmentsWithin (T : Nat) : Nat → List Handle → Bool
  | _, [] => true
  | t, h :: hs => decide (h.readyAt ≤ t + T) && segmentsWithin T (max t h.readyAt) hs

/-! ## Behaviour of the polling loop -/

/-- If the handle is already ready on entry, the loop body never runs:
no exit-status check, no timeout check, and the current time is
returned unchanged. -/
theorem cftpLoop_ready (env : Env) (T : Nat) (h : Handle) (start t fuel : Nat)
    (hr : h.readyAt ≤ t) :
    cftpLoop env T h start t (fuel + 1) = .ok t := by
  simp [cftpLoop, hr]

/-- `checkForTerminatedProcess` on an already-ready handle returns
immediately, whatever the state of the worker processes. -/
theorem checkForTerminatedProcess_ready (env : Env) (T : Nat) (h : Handle) (t : Nat)
    (hr : h.readyAt ≤ t) :
    checkForTerminatedProcess env T h t = .ok t :=
  cftpLoop_ready env T h t t (T + 1) hr

/-- In a quiet environment the loop waits until the handle is ready and
returns that time, provided the handle becomes ready within the timeout
of the segment start. -/
theorem cftpLoop_quiet_ok (env : Env) (T : Nat) (h : Handle) (start : Nat)
    (hq : QuietEnv env) :
    ∀ fuel t, t ≤ h.readyAt → h.readyAt ≤ start + T → h.readyAt - t < fuel →
      cftpLoop env T h start t fuel = .ok h.readyAt := by
  intro fuel
  induction fuel with
  | zero => intro t _ _ hlt; omega
  | succ fuel ih =>
    intro t ht hT hlt
    by_cases hr : h.readyAt ≤ t
    · have he : h.readyAt = t := Nat.le_antisymm hr ht
      rw [cftpLoop_ready env T h start t fuel hr, he]
    · have hcond : ¬ T < t + 1 - start := by omega
      simp only [cftpLoop, if_neg hr, hq.2 t, hq.1]
      simp only [reduceCtorEq, if_false, if_neg hcond]
      exact ih (t + 1) (by omega) hT (by omega)

/-- `checkForTerminatedProcess` in a quiet environment: a handle that
becomes ready within the timeout resolves at time
`max t h.readyAt` (immediately if already ready, else when it becomes
ready). -/
theorem checkForTerminatedProcess_quiet_ok (env : Env) (T : Nat) (h : Handle) (t : Nat)
    (hq : QuietEnv env) (hT : h.readyAt ≤ t + T) :
    checkForTerminatedProcess env T h t = .ok (max t h.readyAt) := by
  by_cases hr : h.readyAt ≤ t
  · rw [checkForTerminatedProcess_ready env T h t hr, Nat.max_eq_left hr]
  · rw [Nat.max_eq_right (by omega)]
    exact cftpLoop_quiet_ok env T h t hq (T + 2) t (by omega) hT (by omega)

/-- In a quiet environment, a handle that does not become ready within
the timeout of the segment start makes the loop raise `TimeoutError`. -/
theorem cftpLoop_quiet_timeout (env : Env) (T : Nat) (h : Handle) (start : Nat)
    (hq : QuietEnv env) (hT : start + T < h.readyAt) :
    ∀ fuel t, t ≤ start + T → start + T + 1 - t < fuel →
      cftpLoop env T h start t fuel = .error .timeout := by
  intro fuel
  induction fuel with
  | zero => intro t ht hlt; omega
  | succ fuel ih =>
    intro t ht hlt
    have hr : ¬ h.readyAt ≤ t := by omega
    simp only [cftpLoop, if_neg hr, hq.2 t, hq.1]
    simp only [reduceCtorEq, if_false]
    by_cases hto : T < t + 1 - start
    · rw [if_pos hto]
    · rw [if_neg hto]
      exact ih (t + 1) (by omega) (by omega)

/-- `checkForTerminatedProcess` in a quiet environment raises
`TimeoutError` exactly when the handle's wait segment exceeds the
timeout. -/
theorem checkForTerminatedProcess_quiet_timeout (env : Env) (T : Nat) (h : Handle) (t : Nat)
    (hq : QuietEnv env) (hT : t + T < h.readyAt) :
    checkForTerminatedProcess env T h t = .error .timeout :=
  cftpLoop_quiet_timeout env T h t hq hT (T + 2) t (by omega) (by omega)

/-- If at some time `s` during the wait (handle still pending, segment
not yet timed out) the tracked process list contains a worker with a
truthy exitcode, the loop aborts with some fatal cause — the dead
worker is caught by the scan at time `s` unless an interrupt, a timeout
or an earlier-detected dead worker aborted the loop before that. -/
theorem cftpLoop_detects (env : Env) (T : Nat) (h : Handle) (start s : Nat)
    (p : Proc) (hp : p ∈ env.procs s) (htp : truthyExit p = true)
    (hs : s < h.readyAt) :
    ∀ fuel t, t ≤ s → s ≤ start + T → s - t < fuel →
      ∃ c, cftpLoop env T h start t fuel = .error c := by
  intro fuel
  induction fuel with
  | zero => intro t ht _ hlt; omega
  | succ fuel ih =>
    intro t ht hsT hlt
    have hr : ¬ h.readyAt ≤ t := by omega
    simp only [cftpLoop, if_neg hr]
    cases hc : (check_for_terminated_processes (env.procs t)).1 with
    | some q => exact ⟨.workerDeath q, rfl⟩
    | none =>
      have htne : t ≠ s := by
        intro he
        subst he
        unfold check_for_terminated_processes at hc
        cases hfind : (env.procs t).find? truthyExit with
        | some q => rw [hfind] at hc; exact absurd hc (by simp)
        | none =>
          have := List.find?_eq_none.mp hfind p hp
          rw [htp] at this
          exact this rfl
      by_cases hint : env.interruptAt = some t
      · exact ⟨.interrupted, by rw [if_pos hint]⟩
      · rw [if_neg hint]
        by_cases hto : T < t + 1 - start
        · exact ⟨.timeout, by rw [if_pos hto]⟩
        · rw [if_neg hto]
          exact ih (t + 1) (by omega) hsT (by omega)

/-- `checkForTerminatedProcess` aborts (with some fatal cause) whenever
a dead worker is present in the scanned process list at a time `s`
inside the handle's pending, not-yet-timed-out wait segment. -/
theorem checkForTerminatedProcess_detects (env : Env) (T : Nat) (h : Handle) (t s : Nat)
    (p : Proc) (hp : p ∈ env.procs s) (htp : truthyExit p = true)
    (ht : t ≤ s) (hs : s < h.readyAt) (hsT : s ≤ t + T) :
    ∃ c, checkForTerminatedProcess env T h t = .error c :=
  cftpLoop_detects env T h t s p hp htp hs (T + 2) t ht hsT (by omega)

/-! ## Behaviour of the collection loop -/

/-- Splitting the collection loop: if the first handles succeed,
collection continues on the rest from the time they finished, and a
fatal cause arising there aborts the whole run. -/
theorem runHandles_append_error (env : Env) (T : Nat) :
    ∀ (pre rest : List Handle) (t0 t : Nat) (vs : List Int) (c : FatalCause),
      runHandles env T pre t0 = .ok (vs, t) →
      runHandles env T rest t = .error c →
      runHandles env T (pre ++ rest) t0 = .error c := by
  intro pre
  induction pre with
  | nil =>
    intro rest t0 t vs c hpre hrest
    simp only [runHandles] at hpre
    cases hpre
    simpa using hrest
  | cons h pre ih =>
    intro rest t0 t vs c hpre hrest
    simp only [List.cons_append, runHandles] at hpre ⊢
    cases hcftp : checkForTerminatedProcess env T h t0 with
    | error c' => simp [hcftp] at hpre
    | ok t1 =>
      simp only [hcftp] at hpre ⊢
      cases hres : h.result with
      | error e => simp [hres] at hpre
      | ok v =>
        simp only [hres] at hpre ⊢
        cases hrec : runHandles env T pre t1 with
        | error c' => simp [hrec] at hpre
        | ok p =>
          obtain ⟨vs1, t2⟩ := p
          simp only [hrec, Except.ok.injEq, Prod.mk.injEq] at hpre
          obtain ⟨hvs, ht2⟩ := hpre
          subst ht2
          simp [List.append_eq, ih rest t1 t2 vs1 c hrec hrest]

/-- Splitting the collection loop, success case: outputs of the two
parts concatenate in order. -/
theorem runHandles_append_ok (env : Env) (T : Nat) :
    ∀ (pre rest : List Handle) (t0 t t' : Nat) (vs ws : List Int),
      runHandles env T pre t0 = .ok (vs, t) →
      runHandles env T rest t = .ok (ws, t') →
      runHandles env T (pre ++ rest) t0 = .ok (vs ++ ws, t') := by
  intro pre
  induction pre with
  | nil =>
    intro rest t0 t t' vs ws hpre hrest
    simp only [runHandles] at hpre
    cases hpre
    simpa using hrest
  | cons h pre ih =>
    intro rest t0 t t' vs ws hpre hrest
    simp only [List.cons_append, runHandles] at hpre ⊢
    cases hcftp : checkForTerminatedProcess env T h t0 with
    | error c' => simp [hcftp] at hpre
    | ok t1 =>
      simp only [hcftp] at hpre ⊢
      cases hres : h.result with
      | error e => simp [hres] at hpre
      | ok v =>
        simp only [hres] at hpre ⊢
        cases hrec : runHandles env T pre t1 with
        | error c' => simp [hrec] at hpre
        | ok p =>
          obtain ⟨vs1, t2⟩ := p
          simp only [hrec, Except.ok.injEq, Prod.mk.injEq] at hpre
          obtain ⟨hvs, ht2⟩ := hpre
          subst ht2
          subst hvs
          simp [List.append_eq, ih rest t1 t2 t' vs1 ws hrec hrest]

/-- In a quiet environment, handles whose wait segments all fit in the
timeout and whose jobs all returned values are collected completely, in
order. -/
theorem runHandles_quiet_ok (env : Env) (T : Nat) (hq : QuietEnv env) :
    ∀ (hs : List Handle) (results : List Int) (t : Nat),
      segmentsWithin T t hs = true →
      hs.map Handle.result = results.map Except.ok →
      ∃ tEnd, runHandles env T hs t = .ok (results, tEnd) := by
  intro hs
  induction hs with
  | nil =>
    intro results t _ hmap
    have : results = [] := by
      cases results with
      | nil => rfl
      | cons v vs => exact absurd hmap.symm (by simp)
    subst this
    exact ⟨t, rfl⟩
  | cons h hs ih =>
    intro results t hseg hmap
    cases results with
    | nil => exact absurd hmap (by simp)
    | cons v vs =>
      simp only [List.map_cons, List.cons.injEq] at hmap
      obtain ⟨hv, hrest⟩ := hmap
      simp only [segmentsWithin, Bool.and_eq_true, decide_eq_true_eq] at hseg
      obtain ⟨hT, hseg'⟩ := hseg
      obtain ⟨tEnd, hrec⟩ := ih vs (max t h.readyAt) hseg' hrest
      refine ⟨tEnd, ?_⟩
      simp only [runHandles, checkForTerminatedProcess_quiet_ok env T h t hq hT, hv, hrec]

/-- A successful collection returns exactly one value per tracked
handle: the outputs are the handles' own results, in order. -/
theorem runHandles_ok_shape (env : Env) (T : Nat) :
    ∀ (hs : List Handle) (t tEnd : Nat) (vs : List Int),
      runHandles env T hs t = .ok (vs, tEnd) →
      hs.map Handle.result = vs.map Except.ok := by
  intro hs
  induction hs with
  | nil =>
    intro t tEnd vs hrun
    simp only [runHandles] at hrun
    cases hrun
    simp
  | cons h hs ih =>
    intro t tEnd vs hrun
    simp only [runHandles] at hrun
    cases hcftp : checkForTerminatedProcess env T h t with
    | error c' => simp [hcftp] at hrun
    | ok t1 =>
      simp only [hcftp] at hrun
      cases hres : h.result with
      | error e => simp [hres] at hrun
      | ok v =>
        simp only [hres] at hrun
        cases hrec : runHandles env T hs t1 with
        | error c' => simp [hrec] at hrun
        | ok p =>
          obtain ⟨vs1, t2⟩ := p
          simp only [hrec, Except.ok.injEq, Prod.mk.injEq] at hrun
          obtain ⟨hvs, _⟩ := hrun
          subst hvs
          simp [hres, ih t1 t2 vs1 hrec]

/-- If every handle is already ready at the start time, collection
never enters the polling loop: time never advances and the values come
straight out, for any environment. -/
theorem runHandles_all_ready (env : Env) (T : Nat) :
    ∀ (hs : List Handle) (results : List Int) (t : Nat),
      (∀ h ∈ hs, h.readyAt ≤ t) →
      hs.map Handle.result = results.map Except.ok →
      runHandles env T hs t = .ok (results, t) := by
  intro hs
  induction hs with
  | nil =>
    intro results t _ hmap
    have : results = [] := by
      cases results with
      | nil => rfl
      | cons v vs => exact absurd hmap.symm (by simp)
    subst this
    rfl
  | cons h hs ih =>
    intro results t hready hmap
    cases results with
    | nil => exact absurd hmap (by simp)
    | cons v vs =>
      simp only [List.map_cons, List.cons.injEq] at hmap
      obtain ⟨hv, hrest⟩ := hmap
      have hr : h.readyAt ≤ t := hready h (by simp)
      simp only [runHandles, checkForTerminatedProcess_ready env T h t hr, hv,
        ih vs t (fun x hx => hready x (by simp [hx])) hrest]

/-! ## Behaviour of the submission/completion state machine -/

/-- Submitting a batch of handles appends them, in order, to the
tracked results list. -/
theorem foldl_submit_results : ∀ (hs : List Handle) (s : TrackState),
    ((hs.map PoolEvent.submit).foldl step s).results = s.results ++ hs := by
  intro hs
  induction hs with
  | nil => intro s; simp
  | cons h hs ih =>
    intro s
    simp only [List.map_cons, List.foldl_cons, step]
    rw [ih (applyAsync s h)]
    show (s.results ++ [h]) ++ hs = s.results ++ h :: hs
    rw [List.append_assoc, List.singleton_append]

/-- Token/progress accounting along a valid trace, relative to an
arbitrary start state: tokens move by submissions minus successful
completions, the tracked list grows by one handle per submission, and
progress grows by one per successful completion. -/
theorem step_accounting : ∀ (evs : List PoolEvent) (s : TrackState),
    validFrom s.queuedTokens evs = true →
    ((evs.foldl step s).queuedTokens + countOk evs =
        s.queuedTokens + countSubmits evs ∧
     (evs.foldl step s).results.length = s.results.length + countSubmits evs ∧
     (evs.foldl step s).progress = s.progress + countOk evs) := by
  intro evs
  induction evs with
  | nil => intro s _; simp [countSubmits, countOk]
  | cons ev evs ih =>
    intro s hv
    cases ev with
    | submit h =>
      simp only [validFrom] at hv
      have H := ih (applyAsync s h) (by simpa [applyAsync] using hv)
      obtain ⟨h1, h2, h3⟩ := H
      simp only [List.foldl_cons, step] at *
      simp only [countSubmits, countOk, applyAsync] at *
      refine ⟨by omega, by simp at h2; omega, by omega⟩
    | completeOk =>
      simp only [validFrom, Bool.and_eq_true, decide_eq_true_eq] at hv
      obtain ⟨hne, hv'⟩ := hv
      have H := ih (markJobDone s) (by simpa [markJobDone] using hv')
      obtain ⟨h1, h2, h3⟩ := H
      simp only [List.foldl_cons, step] at *
      simp only [countSubmits, countOk, markJobDone] at *
      refine ⟨by omega, by omega, by omega⟩
    | completeErr =>
      simp only [validFrom] at hv
      have H := ih s hv
      obtain ⟨h1, h2, h3⟩ := H
      simp only [List.foldl_cons, step] at *
      simp only [countSubmits, countOk] at *
      refine ⟨by omega, by omega, by omega⟩

/-! ## Concrete scenario data -/

/-- A worker that is still alive (`exitcode` is `None`). -/
def procAlive : Proc := { pid := 1, exitcode := none }

/-- A worker that was retired normally with exit status 0
(`maxtasksperchild` recycling). -/
def procRetired : Proc := { pid := 2, exitcode := some 0 }

/-- A worker killed abnormally (e.g. OOM kill), exit status 137. -/
def procKilled : Proc := { pid := 3, exitcode := some 137 }

/-- Environment with a single live worker: no deaths, no interrupts. -/
def envQuiet : Env := { procs := fun _ => [procAlive], interruptAt := none }

/-- Environment whose tracked process list always shows one live worker
and one abnormally killed worker. -/
def envDead : Env :=
  { procs := fun _ => [procAlive, procKilled], interruptAt := none }

/-! ## Claims -/

/-- **C1.** For every batch of jobs submitted via `applyAsync` that all
complete normally (no worker death, no interrupt, every job returns a
value, every wait segment within the timeout), `checkPool` returns a
list of the same length as the submission sequence whose i-th element
is the i-th submitted job's result — the tracked handle list is
exactly the submission sequence (`applyAsync` appends in submission
order) and the outputs follow it, regardless of the completion times
`readyAt`, which may occur in any order. -/
theorem checkPool_returns_results_in_submission_order
    (env : Env) (T t0 : Nat) (hs : List Handle) (results : List Int)
    (hq : QuietEnv env)
    (hseg : segmentsWithin T t0 hs = true)
    (hres : hs.map Handle.result = results.map Except.ok) :
    ((hs.map PoolEvent.submit).foldl step initState).results = hs ∧
    (checkPool env T hs t0).result = .ok results ∧
    results.length = hs.length := by
  obtain ⟨tEnd, hrun⟩ := runHandles_quiet_ok env T hq hs results t0 hseg hres
  refine ⟨?_, ?_, ?_⟩
  · rw [foldl_submit_results hs initState]
    rfl
  · simp [checkPool, hrun]
  · have := congrArg List.length hres
    simpa using this.symm

/-- Witness for C1: three jobs whose completion times are out of
submission order (the second finishes first, then the third, then the
first), all within a per-segment timeout of 5; the output is still the
submission-ordered `[10, 20, 30]`. -/
theorem checkPool_returns_results_in_submission_order_witness :
    (([(⟨3, .ok 10⟩ : Handle), ⟨1, .ok 20⟩, ⟨2, .ok 30⟩].map
        PoolEvent.submit).foldl step initState).results =
        [(⟨3, .ok 10⟩ : Handle), ⟨1, .ok 20⟩, ⟨2, .ok 30⟩] ∧
    (checkPool envQuiet 5 [(⟨3, .ok 10⟩ : Handle), ⟨1, .ok 20⟩, ⟨2, .ok 30⟩] 0).result =
        .ok [10, 20, 30] ∧
    ([10, 20, 30] : List Int).length =
        [(⟨3, .ok 10⟩ : Handle), ⟨1, .ok 20⟩, ⟨2, .ok 30⟩].length :=
  checkPool_returns_results_in_submission_order envQuiet 5 0
    [⟨3, .ok 10⟩, ⟨1, .ok 20⟩, ⟨2, .ok 30⟩] [10, 20, 30]
    ⟨rfl, fun _ => rfl⟩ (by decide) (by decide)

/-- **C2.** If any tracked worker process has a nonzero exit status at
some point `s` while the tracker is waiting on a not-yet-ready handle
(the collection loop reached the handle at time `t`; at `s` the handle
is still pending and its wait segment not yet exhausted), `checkPool`
aborts and fails with `AbnormalPoolTerminationError`.  The model ties
no worker to the job being awaited, so this holds in particular when
the dead worker was running some other job. -/
theorem checkPool_fails_fast_on_dead_worker
    (env : Env) (T t0 t s : Nat) (pre post : List Handle) (h : Handle)
    (vs : List Int) (p : Proc)
    (hpre : runHandles env T pre t0 = .ok (vs, t))
    (ht : t ≤ s) (hrdy : s < h.readyAt) (hsT : s ≤ t + T)
    (hp : p ∈ env.procs s) (htp : truthyExit p = true) :
    (checkPool env T (pre ++ h :: post) t0).result =
      .error (.abnormalPoolTermination none) := by
  obtain ⟨c, hc⟩ := checkForTerminatedProcess_detects env T h t s p hp htp ht hrdy hsT
  have hrest : runHandles env T (h :: post) t = .error c := by
    simp [runHandles, hc]
  have hall := runHandles_append_error env T pre (h :: post) t0 t vs c hpre hrest
  simp [checkPool, hall]

/-- Witness for C2: the first handle is pending until time 4; at
time 0 the tracked list contains a live worker and a worker that died
with status 137 (`procKilled`, not tied to the awaited job);
`checkPool` fails with `AbnormalPoolTerminationError`. -/
theorem checkPool_fails_fast_on_dead_worker_witness :
    runHandles envDead 10 [] 0 = .ok ([], 0) ∧
    procKilled ∈ envDead.procs 0 ∧ truthyExit procKilled = true ∧
    (checkPool envDead 10 ([] ++ (⟨4, .ok 1⟩ : Handle) :: []) 0).result =
      .error (.abnormalPoolTermination none) :=
  ⟨rfl, by decide, by decide,
    checkPool_fails_fast_on_dead_worker envDead 10 0 0 0 [] [] ⟨4, .ok 1⟩ []
      procKilled rfl (by decide) (by decide) (by decide) (by decide) (by decide)⟩

/-- **C3.** The timeout is scoped to each handle's own wait segment.
First half: if the collection loop reaches a handle at time `t` and the
handle does not become ready within `t + T`, the run aborts as a
timeout and `checkPool` fails with `AbnormalPoolTerminationError`.
Second half: if every individual wait segment stays within `T`,
`checkPool` succeeds — with no constraint on the batch's total wall
time, because each segment's clock restarts when the tracker moves to
the next handle. -/
theorem checkPool_timeout_is_per_wait_segment
    (env : Env) (T t0 t : Nat) (pre post hs : List Handle) (h : Handle)
    (vs results : List Int)
    (hq : QuietEnv env) :
    ((runHandles env T pre t0 = .ok (vs, t) → t + T < h.readyAt →
        runHandles env T (pre ++ h :: post) t0 = .error .timeout ∧
        (checkPool env T (pre ++ h :: post) t0).result =
          .error (.abnormalPoolTermination none)) ∧
     (segmentsWithin T t0 hs = true →
        hs.map Handle.result = results.map Except.ok →
        (checkPool env T hs t0).result = .ok results)) := by
  constructor
  · intro hpre hT
    have hc := checkForTerminatedProcess_quiet_timeout env T h t hq hT
    have hrest : runHandles env T (h :: post) t = .error .timeout := by
      simp [runHandles, hc]
    have hall := runHandles_append_error env T pre (h :: post) t0 t vs .timeout hpre hrest
    exact ⟨hall, by simp [checkPool, hall]⟩
  · intro hseg hres
    obtain ⟨tEnd, hrun⟩ := runHandles_quiet_ok env T hq hs results t0 hseg hres
    simp [checkPool, hrun]

/-- Witness for C3, mirroring `test_timeout` and `test_no_timeout`:
with timeout 2, a single handle becoming ready at time 3 makes
`checkPool` fail; three handles becoming ready at times 2, 4 and 6
(total wall time 6 > 2, each segment 2 ≤ 2) succeed. -/
theorem checkPool_timeout_is_per_wait_segment_witness :
    (checkPool envQuiet 2 ([] ++ (⟨3, .ok 7⟩ : Handle) :: []) 0).result =
      .error (.abnormalPoolTermination none) ∧
    (checkPool envQuiet 2 [(⟨2, .ok 1⟩ : Handle), ⟨4, .ok 1⟩, ⟨6, .ok 1⟩] 0).result =
      .ok [1, 1, 1] := by
  have H := checkPool_timeout_is_per_wait_segment envQuiet 2 0 0 [] []
    [⟨2, .ok 1⟩, ⟨4, .ok 1⟩, ⟨6, .ok 1⟩] ⟨3, .ok 7⟩ [] [1, 1, 1]
    ⟨rfl, fun _ => rfl⟩
  exact ⟨(H.1 rfl (by decide)).2, H.2 (by decide) (by decide)⟩

/-- **C4 counterexample.** Three jobs, all resolved at time 0 in a
quiet environment; the middle job's body raised an ordinary
`ValueError` (its worker stayed alive: the tracked list shows only the
live worker).  `checkPool` does *not* record the error and continue: it
fails the whole batch with `AbnormalPoolTerminationError`, refuting
"does not abort the batch". -/
theorem checkPool_job_error_aborts_batch_cx :
    (checkPool envQuiet 5
        [(⟨0, .ok 1⟩ : Handle), ⟨0, .error "ValueError"⟩, ⟨0, .ok 3⟩] 0).result =
      .error (.abnormalPoolTermination none) := by
  decide

/-- **C4 (amended).** A job whose body raises an ordinary error without
killing its worker process aborts the batch: when the collection loop
reaches that job's resolved handle, `res.get()` re-raises the error,
and `checkPool` tears the pool down and fails with
`AbnormalPoolTerminationError` — sibling results collected so far are
discarded and later siblings are never collected. -/
theorem checkPool_job_error_aborts_batch
    (env : Env) (T t0 t : Nat) (pre post : List Handle) (h : Handle)
    (vs : List Int) (e : String)
    (hpre : runHandles env T pre t0 = .ok (vs, t))
    (hr : h.readyAt ≤ t) (he : h.result = .error e) :
    runHandles env T (pre ++ h :: post) t0 = .error (.jobError e) ∧
    (checkPool env T (pre ++ h :: post) t0).result =
      .error (.abnormalPoolTermination none) := by
  have hc := checkForTerminatedProcess_ready env T h t hr
  have hrest : runHandles env T (h :: post) t = .error (.jobError e) := by
    simp [runHandles, hc, he]
  have hall := runHandles_append_error env T pre (h :: post) t0 t vs _ hpre hrest
  exact ⟨hall, by simp [checkPool, hall]⟩

/-- Witness for the amended C4: first job returned 1, second job's body
raised `ValueError`, third job returned 3; the run aborts with the job
error as internal cause and `checkPool` fails. -/
theorem checkPool_job_error_aborts_batch_witness :
    runHandles envQuiet 5
        ([(⟨0, .ok 1⟩ : Handle)] ++ (⟨0, .error "ValueError"⟩ : Handle) :: [⟨0, .ok 3⟩]) 0 =
      .error (.jobError "ValueError") ∧
    (checkPool envQuiet 5
        ([(⟨0, .ok 1⟩ : Handle)] ++ (⟨0, .error "ValueError"⟩ : Handle) :: [⟨0, .ok 3⟩]) 0).result =
      .error (.abnormalPoolTermination none) :=
  checkPool_job_error_aborts_batch envQuiet 5 0 0 [⟨0, .ok 1⟩] [⟨0, .ok 3⟩]
    ⟨0, .error "ValueError"⟩ [1] "ValueError" (by decide) (by decide) (by decide)

/-- **C5.** `checkPool` never returns a partial result list: every call
either returns the complete ordered result of all tracked handles (one
output per handle, each the corresponding handle's value, in order) or
fails with `AbnormalPoolTerminationError` and surfaces no outputs at
all. -/
theorem checkPool_full_results_or_abort (env : Env) (T : Nat)
    (hs : List Handle) (t0 : Nat) (pp : Int) :
    (∃ results, (checkPool env T hs t0 pp).result = .ok results ∧
       hs.map Handle.result = results.map Except.ok) ∨
    (checkPool env T hs t0 pp).result = .error (.abnormalPoolTermination none) := by
  cases hrun : runHandles env T hs t0 with
  | ok pr =>
    obtain ⟨vs, tEnd⟩ := pr
    exact Or.inl ⟨vs, by simp [checkPool, hrun],
      runHandles_ok_shape env T hs t0 tEnd vs hrun⟩
  | error c => exact Or.inr (by simp [checkPool, hrun])

/-- **C6 counterexample.** A concrete abort (worker dead with status
137 while the only handle is pending): `checkPool` raises
`AbnormalPoolTerminationError`, but — both raise sites being
`raise AbnormalPoolTerminationError from None` — the surfaced error
carries no cause: there is no `FatalCause` it wraps, refuting "which
wraps the original cause". -/
theorem checkPool_abort_cause_not_attached :
    (checkPool envDead 10 [(⟨4, .ok 1⟩ : Handle)] 0).result =
      .error (.abnormalPoolTermination none) ∧
    ¬ ∃ c : FatalCause,
      (checkPool envDead 10 [(⟨4, .ok 1⟩ : Handle)] 0).result =
        .error (.abnormalPoolTermination (some c)) := by
  refine ⟨by decide, ?_⟩
  rintro ⟨c, hc⟩
  have h1 : (checkPool envDead 10 [(⟨4, .ok 1⟩ : Handle)] 0).result =
      .error (.abnormalPoolTermination none) := by decide
  rw [h1] at hc
  simp at hc

/-- **C6 (amended).** Pool teardown (`stopPool`: `pool.terminate()`
then `pool.join()`) happens on every return path of `checkPool`,
success or failure, exactly once; every abort — worker death, timeout,
interrupt, or re-raised job error — surfaces the single unified error
kind `AbnormalPoolTerminationError`, raised with no cause attached:
the original cause is logged and then discarded by `from None`, not
wrapped. -/
theorem checkPool_teardown_exactly_once (env : Env) (T : Nat)
    (hs : List Handle) (t0 : Nat) (pp : Int) :
    (checkPool env T hs t0 pp).terminateCalls = 1 ∧
    (checkPool env T hs t0 pp).joinCalls = 1 ∧
    ((∃ results, (checkPool env T hs t0 pp).result = .ok results) ∨
      (checkPool env T hs t0 pp).result = .error (.abnormalPoolTermination none)) := by
  cases hrun : runHandles env T hs t0 with
  | ok pr =>
    obtain ⟨vs, tEnd⟩ := pr
    exact ⟨by simp [checkPool, hrun], by simp [checkPool, hrun],
      Or.inl ⟨vs, by simp [checkPool, hrun]⟩⟩
  | error c =>
    exact ⟨by simp [checkPool, hrun], by simp [checkPool, hrun],
      Or.inr (by simp [checkPool, hrun])⟩

/-- **C7.** With `maxtasksperchild` configured, the exit-status scan
sees the current process set: spawning a replacement
(`NestablePool.Process`) appends it to the tracked list; when no
abnormal exit is found, the scan prunes exactly the retirees that
exited with status 0 (live processes, `exitcode = None`, are kept);
and a worker that dies with nonzero status after being spawned as a
replacement is still detected by the scan, which reports a dead
process. -/
theorem nestablePool_process_tracking (ps : List Proc) (pNew : Proc) (c : Int)
    (hc : pNew.exitcode = some c) (hc0 : c ≠ 0) :
    Process ps pNew = ps ++ [pNew] ∧
    pNew ∈ Process ps pNew ∧
    ((check_for_terminated_processes ps).1 = none →
      (check_for_terminated_processes ps).2 =
        ps.filter (fun p => decide (p.exitcode ≠ some 0))) ∧
    ∃ q, (check_for_terminated_processes (Process ps pNew)).1 = some q ∧
      truthyExit q = true := by
  refine ⟨rfl, by simp [Process], ?_, ?_⟩
  · intro hnone
    unfold check_for_terminated_processes at hnone ⊢
    cases hfind : ps.find? truthyExit with
    | some q => simp [hfind] at hnone
    | none => simp [hfind]
  · have htp : truthyExit pNew = true := by simp [truthyExit, hc, hc0]
    have hsome : ((Process ps pNew).find? truthyExit).isSome :=
      List.find?_isSome.mpr ⟨pNew, by simp [Process], htp⟩
    obtain ⟨q, hq⟩ := Option.isSome_iff_exists.mp hsome
    refine ⟨q, ?_, List.find?_some hq⟩
    unfold check_for_terminated_processes
    rw [hq]

/-- Witness for C7: the tracked list holds a 0-exit retiree and a live
worker; the replacement worker then dies with status 134 and is
detected. -/
theorem nestablePool_process_tracking_witness :
    Process [procRetired, procAlive] (⟨4, some 134⟩ : Proc) =
      [procRetired, procAlive] ++ [⟨4, some 134⟩] ∧
    (⟨4, some 134⟩ : Proc) ∈ Process [procRetired, procAlive] ⟨4, some 134⟩ ∧
    ((check_for_terminated_processes [procRetired, procAlive]).1 = none →
      (check_for_terminated_processes [procRetired, procAlive]).2 =
        [procRetired, procAlive].filter (fun p => decide (p.exitcode ≠ some 0))) ∧
    ∃ q, (check_for_terminated_processes
        (Process [procRetired, procAlive] ⟨4, some 134⟩)).1 = some q ∧
      truthyExit q = true :=
  nestablePool_process_tracking [procRetired, procAlive] ⟨4, some 134⟩ 134
    (by decide) (by decide)

/-- **C8.** The per-call `printProgressEvery` argument of `checkPool`
is dead: it does not occur in the body of `checkPool`, so any two
values produce the identical outcome — same result and same side
effects — in every pool state.  Only the constructor-level
`print_progress_every` (wired to the progress bar in
`JobPool.__init__`) can influence progress behaviour. -/
theorem checkPool_printProgressEvery_ignored (env : Env) (T : Nat)
    (hs : List Handle) (t0 : Nat) (pp1 pp2 : Int) :
    checkPool env T hs t0 pp1 = checkPool env T hs t0 pp2 := rfl

/-- **C9.** The worker-exit-status and timeout checks run only while
the handle currently being awaited is not yet ready: if every handle is
already ready at the moment it is examined (all ready at the start
time — time then never advances past `t0`) and every job returned a
value, `checkPool` returns the results without raising, for *every*
environment — including one whose tracked process list contains a
worker with nonzero exit status the whole time. -/
theorem checkPool_ready_handles_skip_checks (env : Env) (T t0 : Nat)
    (hs : List Handle) (results : List Int)
    (hready : ∀ h ∈ hs, h.readyAt ≤ t0)
    (hres : hs.map Handle.result = results.map Except.ok) :
    (checkPool env T hs t0).result = .ok results := by
  have hrun := runHandles_all_ready env T hs results t0 hready hres
  simp [checkPool, hrun]

/-- Witness for C9: both handles are ready at time 0, the environment's
tracked list permanently contains `procKilled` (exit status 137), yet
`checkPool` returns the results. -/
theorem checkPool_ready_handles_skip_checks_witness :
    (∀ h ∈ [(⟨0, .ok 5⟩ : Handle), ⟨0, .ok 6⟩], h.readyAt ≤ 0) ∧
    (checkPool envDead 10 [(⟨0, .ok 5⟩ : Handle), ⟨0, .ok 6⟩] 0).result =
      .ok [5, 6] :=
  ⟨by decide,
    checkPool_ready_handles_skip_checks envDead 10 0
      [⟨0, .ok 5⟩, ⟨0, .ok 6⟩] [5, 6] (by decide) (by decide)⟩

/-- **C10.** `applyAsync` places exactly one token on the job queue and
appends exactly one handle to the tracked results (touching progress
not at all); `markJobDone` — invoked only as a success callback —
removes exactly one token and advances the progress count by exactly
one; a job that ends in an error releases no token and advances no
progress (`completeErr` leaves the state unchanged).  Consequently,
along any valid event trace the token count equals submitted minus
successfully completed, the tracked list holds one handle per
submission, and the progress count equals the successful
completions. -/
theorem applyAsync_markJobDone_token_accounting
    (evs : List PoolEvent) (s : TrackState) (h : Handle)
    (hv : validFrom 0 evs = true) :
    (applyAsync s h).queuedTokens = s.queuedTokens + 1 ∧
    (applyAsync s h).results = s.results ++ [h] ∧
    (applyAsync s h).progress = s.progress ∧
    (markJobDone s).queuedTokens = s.queuedTokens - 1 ∧
    (markJobDone s).progress = s.progress + 1 ∧
    step s .completeErr = s ∧
    countOk evs ≤ countSubmits evs ∧
    (evs.foldl step initState).queuedTokens = countSubmits evs - countOk evs ∧
    (evs.foldl step initState).results.length = countSubmits evs ∧
    (evs.foldl step initState).progress = countOk evs := by
  have H := step_accounting evs initState hv
  obtain ⟨h1, h2, h3⟩ := H
  have e1 : initState.queuedTokens = 0 := rfl
  have e2 : initState.results = ([] : List Handle) := rfl
  have e3 : initState.progress = 0 := rfl
  rw [e1] at h1
  rw [e2] at h2
  rw [e3] at h3
  simp only [List.length_nil] at h2
  exact ⟨rfl, rfl, rfl, rfl, rfl, rfl, by omega, by omega, by omega, by omega⟩

/-- Witness for C10: two submissions, one success callback, one job
ending in an error; one token remains queued, two handles are tracked,
progress advanced once. -/
theorem applyAsync_markJobDone_token_accounting_witness :
    validFrom 0 [PoolEvent.submit ⟨0, .ok 1⟩, PoolEvent.submit ⟨1, .error "E"⟩,
        PoolEvent.completeOk, PoolEvent.completeErr] = true ∧
    ([PoolEvent.submit (⟨0, .ok 1⟩ : Handle), PoolEvent.submit ⟨1, .error "E"⟩,
        PoolEvent.completeOk, PoolEvent.completeErr].foldl step initState).queuedTokens = 1 ∧
    ([PoolEvent.submit (⟨0, .ok 1⟩ : Handle), PoolEvent.submit ⟨1, .error "E"⟩,
        PoolEvent.completeOk, PoolEvent.completeErr].foldl step initState).results.length = 2 ∧
    ([PoolEvent.submit (⟨0, .ok 1⟩ : Handle), PoolEvent.submit ⟨1, .error "E"⟩,
        PoolEvent.completeOk, PoolEvent.completeErr].foldl step initState).progress = 1 := by
  have H := applyAsync_markJobDone_token_accounting
    [PoolEvent.submit ⟨0, .ok 1⟩, PoolEvent.submit ⟨1, .error "E"⟩,
      PoolEvent.completeOk, PoolEvent.completeErr] initState ⟨0, .ok 1⟩ (by decide)
  exact ⟨by decide, H.2.2.2.2.2.2.2.1, H.2.2.2.2.2.2.2.2.1, H.2.2.2.2.2.2.2.2.2⟩
